import Mathlib

/-!
Verification of the capture orchestration core of ttbd (src/ttbd/ttbl/capture.py):
a shallow embedding of the registry (class `interface`), of the generic
snapshot and stream capturer drivers, and of the MIME type validation,
together with theorems about the specification's claims.
-/

namespace Capture

/-- Persistent per-target property store (`target.property_get` /
`target.property_set`): a key to string-value map where a key that was never
set, or was set to Python `None`, reads back as `none`. -/
structure PropStore where
  get : String → Option String

/-- Embeds `target.property_set(key, v)`: setting `none` (Python `None`)
clears the key. -/
def PropStore.set (ps : PropStore) (k : String) (v : Option String) : PropStore :=
  ⟨fun q => if q = k then v else ps.get q⟩

/-- A store with no keys set. -/
def emptyStore : PropStore := ⟨fun _ => none⟩

/-- Python truthiness of a property value as used by `if not capturing:`:
`None` and the empty string are falsy, any other string (the code stores
the string "True") is truthy. -/
def pyTruthy : Option String → Bool
  | none => false
  | some s => !s.isEmpty

/-- Embeds the Python `OSError` exception object; only its `errno` attribute
is relevant here. -/
structure OSErrorExc where
  errno : Int
deriving DecidableEq

/-- Errors (Python exceptions) that the embedded operations can raise. -/
inductive PyErr where
  | runtimeError (msg : String)
  | assertionError (msg : String)
  | osError (e : OSErrorExc)
  | calledProcessError
deriving DecidableEq

/-- Result mapping returned to the client (a Python dict of optional string
values, e.g. `dict(stream_file = file_name)`; `{ }` is `⟨[]⟩`). -/
structure ResDict where
  entries : List (String × Option String)
deriving DecidableEq

/-- Observable invocations of a capturer implementation's methods performed
by the registry code while handling one request. -/
inductive Event where
  | implStart (capturer : String)
  | implStopAndGet (capturer : String)
deriving DecidableEq

/-- The registry's view of one capturer implementation (`ttbl.capture.impl_c`
instance): its `stream` mode flag and its `start` / `stop_and_get` methods,
each of which may mutate the property store and may raise. -/
structure ImplOracle where
  stream : Bool
  start : PropStore → String → PropStore × Except PyErr Unit
  stop_and_get : PropStore → String → PropStore × Except PyErr (Option ResDict)

/-- Outcome of one registry operation: the trace of implementation-method
invocations the registry performed, the final property store, and either the
returned value or the propagated exception. -/
structure OpResult (α : Type) where
  trace : List Event
  store : PropStore
  result : Except PyErr α

/-- Property-store key `"capturer-%s-started" % capturer`. -/
def startedKey (capturer : String) : String :=
  "capturer-" ++ capturer ++ "-started"

/-- Property-store key `"capturer-%s-output" % capturer`. -/
def outputKey (capturer : String) : String :=
  "capturer-" ++ capturer ++ "-output"

/-- Embeds `interface.put_start` (capture.py lines 255-284) for an already
resolved `(impl, capturer)` pair, inside the ownership context manager.
The `owned` flag stands for `target.target_owned_and_locked(who)` succeeding.
Modelled from the spec: the lock itself lives in the external `ttbl` base
package; per the spec it fails with a NotOwned error when the caller does not
hold the target. The `impl.user_path = user_path` attribute write is not
modelled (no claim concerns it). -/
def put_start (impl : ImplOracle) (capturer : String) (owned : Bool)
    (ps : PropStore) : OpResult ResDict :=
  if owned = false then
    ⟨[], ps, .error (.runtimeError "NotOwned")⟩
  else if impl.stream = false then
    ⟨[], ps, .error (.runtimeError
      (capturer ++ ": starting not valid in snapshot capturers"))⟩
  else if pyTruthy (ps.get (startedKey capturer)) = false then
    ⟨[], ps.set (startedKey capturer) (some "True"), .ok ⟨[]⟩⟩
  else
    let ps1 := ps.set (startedKey capturer) none
    match impl.stop_and_get ps1 capturer with
    | (ps2, .error e) => ⟨[.implStopAndGet capturer], ps2, .error e⟩
    | (ps2, .ok _) =>
      match impl.start ps2 capturer with
      | (ps3, .error e) =>
        ⟨[.implStopAndGet capturer, .implStart capturer], ps3, .error e⟩
      | (ps3, .ok _) =>
        ⟨[.implStopAndGet capturer, .implStart capturer],
         ps3.set (startedKey capturer) (some "True"), .ok ⟨[]⟩⟩

/-- Embeds `interface.put_stop_and_get` (capture.py lines 288-309) for an
already resolved `(impl, capturer)` pair; `owned` as in `put_start`. -/
def put_stop_and_get (impl : ImplOracle) (capturer : String) (owned : Bool)
    (ps : PropStore) : OpResult (Option ResDict) :=
  if owned = false then
    ⟨[], ps, .error (.runtimeError "NotOwned")⟩
  else if impl.stream = false then
    match impl.stop_and_get ps capturer with
    | (ps1, r) => ⟨[.implStopAndGet capturer], ps1, r⟩
  else if pyTruthy (ps.get (startedKey capturer)) = true then
    let ps1 := ps.set (startedKey capturer) none
    match impl.stop_and_get ps1 capturer with
    | (ps2, r) => ⟨[.implStopAndGet capturer], ps2, r⟩
  else
    ⟨[], ps, .error (.runtimeError (capturer ++ " is not capturing, can not stop"))⟩

/-- Embeds `interface.get_list` (capture.py lines 313-330): for every
registered name, `some true` / `some false` is the started state of a stream
capturer (Python True/False) and `none` marks a snapshot capturer
(Python None). -/
def get_list (impls : List (String × ImplOracle)) (ps : PropStore) :
    List (String × Option Bool) :=
  impls.map (fun x =>
    if x.2.stream then (x.1, some (pyTruthy (ps.get (startedKey x.1))))
    else (x.1, none))

/-- Embeds `interface._release_hook` (capture.py lines 333-336): iterate the
registered implementations and call `stop_and_get` on each stream one; an
exception aborts the loop and propagates. -/
def release_hook (impls : List (String × ImplOracle)) (ps : PropStore) :
    OpResult Unit :=
  match impls with
  | [] => ⟨[], ps, .ok ()⟩
  | (name, impl) :: rest =>
    if impl.stream = true then
      match impl.stop_and_get ps name with
      | (ps1, .error e) => ⟨[.implStopAndGet name], ps1, .error e⟩
      | (ps1, .ok _) =>
        let r := release_hook rest ps1
        ⟨.implStopAndGet name :: r.trace, r.store, r.result⟩
    else
      release_hook rest ps

/-- Association-list lookup (first match), the embedding of a Python dict
read `d[k]` / `k in d`. -/
def alookup {α : Type} : List (String × α) → String → Option α
  | [], _ => none
  | (k, v) :: rest, q => if k = q then some v else alookup rest q

/-- Embeds `interface.put_start` at the registry level, including the
`assert capturer in list(self.impls.keys())` check of line 266.
Modelled from the spec: `self.arg_impl_get(args, "capturer")` is defined in
the external `ttbl.tt_interface` base class (not in this repository's
sources); per the spec, alias resolution happened once at registration, so it
returns the implementation registered under the requested capturer name
together with that very name as given in the request. -/
def registry_put_start (impls : List (String × ImplOracle)) (capturer : String)
    (owned : Bool) (ps : PropStore) : OpResult ResDict :=
  match alookup impls capturer with
  | none => ⟨[], ps, .error (.assertionError ("capturer " ++ capturer ++ " unknown"))⟩
  | some impl => put_start impl capturer owned ps

/-- A value stored in the registry dictionary `self.impls`: either an
`impl_c` instance (identified by an instance token, so that two names bound
to the same token share one instance) or, as the code permits for a chained
synonym, a plain string naming another capturer. -/
inductive CapDecl where
  | impl (tok : Nat)
  | synonym (name : String)
deriving DecidableEq

/-- Python dict assignment `d[k] = v`: replace the value of an existing key
in place, else append the new binding. -/
def dictSet {α : Type} (d : List (String × α)) (k : String) (v : α) :
    List (String × α) :=
  match d with
  | [] => [(k, v)]
  | (k1, v1) :: rest =>
    if k1 = k then (k, v) :: rest else (k1, v1) :: dictSet rest k v

/-- Loop body of `interface.__init__` (capture.py lines 220-237): iterate the
declarations in order, accumulating `self.impls`; a repeated direct
implementation name or a synonym whose referent is absent from the original
declarations raises AssertionError. The first argument stays the full
original declaration dict (`impls` in the code), against which synonyms are
checked and resolved. -/
def interface_init_go (decls : List (String × CapDecl)) :
    List (String × CapDecl) → List (String × CapDecl) →
    Except PyErr (List (String × CapDecl))
  | [], acc => .ok acc
  | (capturer, CapDecl.impl i) :: rest, acc =>
    if (alookup acc capturer).isSome then
      .error (.assertionError ("capturer " ++ capturer ++ " is repeated "))
    else
      interface_init_go decls rest (dictSet acc capturer (CapDecl.impl i))
  | (capturer, CapDecl.synonym s) :: rest, acc =>
    match alookup decls s with
    | none =>
      .error (.assertionError
        ("capturer synonym " ++ capturer ++ " refers to a capturer "
          ++ s ++ " that does not exist "))
    | some v => interface_init_go decls rest (dictSet acc capturer v)

/-- Embeds `interface.__init__` (capture.py lines 213-237): build
`self.impls` from the keyword declarations. -/
def interface_init (decls : List (String × CapDecl)) :
    Except PyErr (List (String × CapDecl)) :=
  interface_init_go decls decls []

/-- Outcome of `commonl.process_terminate` as seen by
`generic_stream.stop_and_get`: success, or an OSError it raised (the
function itself lives in the external `commonl` module). -/
def TerminateOutcome : Type := Except OSErrorExc Unit

/-- The errno value `errno.ESRCH` (no such process). -/
def ESRCH : Int := 3

/-- Python equality `e == n` between an OSError exception object `e` and an
integer `n`: OSError defines no cross-type equality with integers, so the
comparison falls back to object identity and is always False. The code at
capture.py line 628 compares the exception object `e` itself, not `e.errno`,
with `errno.ESRCH`. -/
def pyEqExcInt (_e : OSErrorExc) (_n : Int) : Bool := false

/-- Embeds `generic_stream.stop_and_get` (capture.py lines 612-629): read
the persisted output path, clear it, terminate the supervised process via
the pid file, and return `dict(stream_file = file_name)`; on OSError run the
`except` clause `if e != errno.ESRCH: raise`, whose fall-through (were it
ever taken) returns Python None. The pid file handling and keyword expansion
are external side effects folded into the `terminate` outcome. -/
def generic_stream_stop_and_get (terminate : TerminateOutcome)
    (capturer : String) (ps : PropStore) :
    PropStore × Except PyErr (Option ResDict) :=
  let file_name := ps.get (outputKey capturer)
  let ps1 := ps.set (outputKey capturer) none
  match terminate with
  | .ok _ => (ps1, .ok (some ⟨[("stream_file", file_name)]⟩))
  | .error e =>
    if pyEqExcInt e ESRCH = false then (ps1, .error (.osError e))
    else (ps1, .ok none)

/-- Embeds `generic_stream.start` (capture.py lines 577-610): persist the
output file name under `capturer-<name>-output`, then run the pre-commands
and launch the capture process, whose combined outcome (success, or the
exception of a failed launch) is the `launch` parameter. -/
def generic_stream_start (launch : Except PyErr Unit) (file_name : String)
    (capturer : String) (ps : PropStore) : PropStore × Except PyErr Unit :=
  let ps1 := ps.set (outputKey capturer) (some file_name)
  match launch with
  | .ok _ => (ps1, .ok ())
  | .error e => (ps1, .error e)

/-- A `generic_stream` instance as the registry sees it (`stream = True` is
set by `impl_c.__init__(self, True, mimetype)` at line 572). -/
def generic_stream_oracle (launch : Except PyErr Unit) (file_name : String)
    (terminate : TerminateOutcome) : ImplOracle where
  stream := true
  start := fun ps c => generic_stream_start launch file_name c ps
  stop_and_get := fun ps c => generic_stream_stop_and_get terminate c ps

/-- Embeds `generic_snapshot.stop_and_get` (capture.py lines 456-483): run
the pre-commands and the capture command synchronously (their combined
outcome is `cmdsOk`; a failing command raises CalledProcessError after
logging) and return `dict(stream_file = file_name)`. It never touches the
property store. -/
def generic_snapshot_stop_and_get (cmdsOk : Bool) (file_name : String)
    (_capturer : String) (ps : PropStore) :
    PropStore × Except PyErr (Option ResDict) :=
  if cmdsOk then (ps, .ok (some ⟨[("stream_file", some file_name)]⟩))
  else (ps, .error .calledProcessError)

/-- Character class `[_a-zA-Z0-9]` of `mime_type_regex` (ASCII letters,
digits, underscore; the pattern is ASCII-literal, no IGNORECASE). -/
def isWordChar (c : Char) : Bool := c.isAlpha || c.isDigit || c == '_'

/-- Split a character list at every comma (the pieces do not contain the
separator); always returns at least one piece. -/
def splitComma : List Char → List (List Char)
  | [] => [[]]
  | c :: cs =>
    if c = ',' then [] :: splitComma cs
    else
      match splitComma cs with
      | [] => [[c]]
      | p :: ps => (c :: p) :: ps

/-- Decides whether one piece matches `[_a-zA-Z0-9]+/[_a-zA-Z0-9]+`: a
nonempty word, a slash, a nonempty word, nothing else. Since `/` is not a
word character, the maximal word prefix is the only possible match split. -/
def isToken (t : List Char) : Bool :=
  match t.dropWhile isWordChar with
  | x :: r2 =>
    x == '/' && !(t.takeWhile isWordChar).isEmpty && !r2.isEmpty
      && r2.all isWordChar
  | [] => false

/-- Decides whether a whole string matches the body of `mime_type_regex`,
`^TOK(,TOK)*$` with `TOK = [_a-zA-Z0-9]+/[_a-zA-Z0-9]+`: since no token may
contain a comma, a string is in the language exactly when each of its
comma-separated pieces is a token (the empty string yields the single empty
piece, which is not a token). -/
def matchesBody (l : List Char) : Bool :=
  (splitComma l).all isToken

/-- Embeds `mime_type_regex.search(s)` (capture.py lines 94-96): the pattern
is anchored by `^` and `$`, and Python `$` (without MULTILINE) matches at the
end of the string or just before one newline at the end of the string, so a
single trailing newline is tolerated. -/
def mime_type_regex_search (s : String) : Bool :=
  matchesBody s.data ||
    (match s.data.getLast? with
     | some c => c == '\n' && matchesBody s.data.dropLast
     | none => false)

/-- Embeds `impl_c.__init__` (capture.py lines 109-120): record the stream
flag and assert the MIME type matches `mime_type_regex`, else raise
AssertionError at construction time. -/
def impl_c_init (stream : Bool) (mimetype : String) :
    Except PyErr (Bool × String) :=
  if mime_type_regex_search mimetype then .ok (stream, mimetype)
  else .error (.assertionError (mimetype ++ ": MIME type specification not valid"))

/-- Whether a fallible computation succeeded. -/
def isOkE {ε α : Type} : Except ε α → Bool
  | .ok _ => true
  | .error _ => false

/-- Specification-side definition, from the claim's words: a media-type
string is one or more comma-separated tokens, each token a nonempty run of
characters from `[A-Za-z0-9_]`, a slash, and another nonempty run. -/
def IsMimeToken (t : List Char) : Prop :=
  ∃ w1 w2 : List Char, t = w1 ++ '/' :: w2 ∧ w1 ≠ [] ∧ w2 ≠ [] ∧
    (∀ c ∈ w1, isWordChar c = true) ∧ (∀ c ∈ w2, isWordChar c = true)

/-- Specification-side definition, from the claim's words: the language of
media-type strings the claim says are accepted, one or more comma-separated
tokens. -/
inductive MediaTypeTokens : List Char → Prop where
  | single (t : List Char) : IsMimeToken t → MediaTypeTokens t
  | cons (t rest : List Char) : IsMimeToken t → MediaTypeTokens rest →
      MediaTypeTokens (t ++ ',' :: rest)

/-- Join pieces back with commas (left inverse of `splitComma`). -/
def joinComma : List (List Char) → List Char
  | [] => []
  | [p] => p
  | p :: q :: ps => p ++ ',' :: joinComma (q :: ps)

/-- A stream-mode implementation whose methods succeed without touching the
store, for concrete instantiations. -/
def noopStreamOracle : ImplOracle where
  stream := true
  start := fun ps _ => (ps, .ok ())
  stop_and_get := fun ps _ => (ps, .ok none)

/-- A snapshot-mode implementation backed by the `generic_snapshot` model,
for concrete instantiations. -/
def noopSnapshotOracle : ImplOracle where
  stream := false
  start := fun ps _ => (ps, .ok ())
  stop_and_get := fun ps c => generic_snapshot_stop_and_get true "shot.png" c ps

/-- A stream-mode implementation whose `stop_and_get` raises, for concrete
instantiations. -/
def failingStreamOracle : ImplOracle where
  stream := true
  start := fun ps _ => (ps, .ok ())
  stop_and_get := fun ps _ => (ps, .error (.runtimeError "boom"))

/-- C1: on a stream capturer whose started flag is unset, put_start only sets
the flag and returns the empty dict; contrary to the claim (and to the
method's own docstring) the implementation's start method is never invoked —
the invocation trace is empty. -/
theorem put_start_fresh_never_invokes_start
    (impl : ImplOracle) (capturer : String) (ps : PropStore)
    (hs : impl.stream = true)
    (hnc : pyTruthy (ps.get (startedKey capturer)) = false) :
    put_start impl capturer true ps
      = ⟨[], ps.set (startedKey capturer) (some "True"), .ok ⟨[]⟩⟩ := by
  simp [put_start, hs, hnc]

/-- Witness for C1 at a concrete capturer and empty store. -/
theorem put_start_fresh_never_invokes_start_witness :
    put_start noopStreamOracle "c0" true emptyStore
      = ⟨[], emptyStore.set (startedKey "c0") (some "True"), .ok ⟨[]⟩⟩ :=
  put_start_fresh_never_invokes_start noopStreamOracle "c0" emptyStore rfl rfl

/-- C3: when `commonl.process_terminate` raises an OSError, `generic_stream.
stop_and_get` re-raises it whatever its errno, because line 628 compares the
exception object itself (never equal to an integer) with `errno.ESRCH`; in
particular the errno ESRCH case, which the claim says is treated as success,
propagates to the caller. -/
theorem generic_stream_stop_reraises_esrch :
    (∀ (e : OSErrorExc) (capturer : String) (ps : PropStore),
       (generic_stream_stop_and_get (Except.error e) capturer ps).2
         = Except.error (PyErr.osError e))
    ∧ (generic_stream_stop_and_get (Except.error ⟨ESRCH⟩) "hdmi0" emptyStore).2
        = Except.error (PyErr.osError ⟨ESRCH⟩) :=
  ⟨fun _ _ _ => rfl, rfl⟩

/-- C4: restarting an already-started stream capturer whose previous capture
process already exited (termination raises OSError ESRCH) makes put_start
fail: the forced stop_and_get re-raises the OSError, so the restart path does
fail merely because the previous session was left dangling. -/
theorem put_start_restart_fails_on_dead_process
    (capturer file_name : String) (ps : PropStore)
    (hst : pyTruthy (ps.get (startedKey capturer)) = true) :
    (put_start (generic_stream_oracle (.ok ()) file_name (.error ⟨ESRCH⟩))
        capturer true ps).result
      = .error (.osError ⟨ESRCH⟩) := by
  simp [put_start, generic_stream_oracle, hst, generic_stream_stop_and_get,
    pyEqExcInt]

/-- Witness for C4 at a concrete capturer with the started flag set. -/
theorem put_start_restart_fails_on_dead_process_witness :
    (put_start (generic_stream_oracle (.ok ()) "out.avi" (.error ⟨ESRCH⟩))
        "hdmi0" true (emptyStore.set (startedKey "hdmi0") (some "True"))).result
      = .error (.osError ⟨ESRCH⟩) :=
  put_start_restart_fails_on_dead_process "hdmi0" "out.avi" _ rfl

/-- C5: stop_and_get on a stream capturer whose started flag is unset raises
the is-not-capturing RuntimeError, leaves the property store exactly as it
was and never invokes the implementation's stop_and_get (empty trace). -/
theorem put_stop_and_get_not_started_fails_clean
    (impl : ImplOracle) (capturer : String) (ps : PropStore)
    (hs : impl.stream = true)
    (hnc : pyTruthy (ps.get (startedKey capturer)) = false) :
    put_stop_and_get impl capturer true ps
      = ⟨[], ps, .error (.runtimeError
          (capturer ++ " is not capturing, can not stop"))⟩ := by
  simp [put_stop_and_get, hs, hnc]

/-- Witness for C5 at a concrete capturer and empty store. -/
theorem put_stop_and_get_not_started_fails_clean_witness :
    put_stop_and_get noopStreamOracle "c0" true emptyStore
      = ⟨[], emptyStore, .error (.runtimeError
          ("c0" ++ " is not capturing, can not stop"))⟩ :=
  put_stop_and_get_not_started_fails_clean noopStreamOracle "c0" emptyStore rfl rfl

/-- C6: put_start on a snapshot capturer raises the starting-not-valid
RuntimeError for any caller holding the target lock, regardless of the
property store. -/
theorem put_start_snapshot_invalid_operation
    (impl : ImplOracle) (capturer : String) (ps : PropStore)
    (hs : impl.stream = false) :
    put_start impl capturer true ps
      = ⟨[], ps, .error (.runtimeError
          (capturer ++ ": starting not valid in snapshot capturers"))⟩ := by
  simp [put_start, hs]

/-- Witness for C6 at a concrete snapshot capturer. -/
theorem put_start_snapshot_invalid_operation_witness :
    put_start noopSnapshotOracle "vnc0" true emptyStore
      = ⟨[], emptyStore, .error (.runtimeError
          ("vnc0" ++ ": starting not valid in snapshot capturers"))⟩ :=
  put_start_snapshot_invalid_operation noopSnapshotOracle "vnc0" emptyStore rfl

/-- C7: on a snapshot capturer, the registry's stop_and_get is exactly one
direct invocation of the implementation's stop_and_get — the registry neither
reads nor writes any started flag around it — and the `generic_snapshot`
driver leaves the property store untouched, so repeated calls are idempotent
apart from the output file they each produce. -/
theorem put_stop_and_get_snapshot_direct :
    (∀ (impl : ImplOracle) (capturer : String) (ps : PropStore),
       impl.stream = false →
       put_stop_and_get impl capturer true ps
         = ⟨[Event.implStopAndGet capturer], (impl.stop_and_get ps capturer).1,
            (impl.stop_and_get ps capturer).2⟩)
    ∧ (∀ (cmdsOk : Bool) (file_name capturer : String) (ps : PropStore),
       (generic_snapshot_stop_and_get cmdsOk file_name capturer ps).1 = ps) := by
  constructor
  · intro impl capturer ps hs
    rcases h : impl.stop_and_get ps capturer with ⟨ps1, r⟩
    simp [put_stop_and_get, hs, h]
  · intro cmdsOk file_name capturer ps
    unfold generic_snapshot_stop_and_get
    split <;> rfl

/-- Witness for C7 at a concrete snapshot capturer. -/
theorem put_stop_and_get_snapshot_direct_witness :
    put_stop_and_get noopSnapshotOracle "vnc0" true emptyStore
      = ⟨[Event.implStopAndGet "vnc0"],
         (noopSnapshotOracle.stop_and_get emptyStore "vnc0").1,
         (noopSnapshotOracle.stop_and_get emptyStore "vnc0").2⟩ :=
  put_stop_and_get_snapshot_direct.1 noopSnapshotOracle "vnc0" emptyStore rfl

/-- C2 counterexample: with a single stream capturer whose started flag is
unset and whose stop_and_get raises, the release hook still invokes
stop_and_get, and the error propagates out of the hook — contradicting the
claim on both counts (the flag is not consulted, and the error is neither
logged-and-swallowed nor kept from escaping). -/
theorem release_hook_claim_counterexample :
    pyTruthy (emptyStore.get (startedKey "c0")) = false
    ∧ (release_hook [("c0", failingStreamOracle)] emptyStore).trace
        = [Event.implStopAndGet "c0"]
    ∧ (release_hook [("c0", failingStreamOracle)] emptyStore).result
        = Except.error (PyErr.runtimeError "boom") :=
  ⟨rfl, rfl, rfl⟩

/-- C2 as amended: the release hook invokes stop_and_get on every stream-mode
capturer regardless of any started flag (when all those calls succeed it
stops exactly the stream capturers, in registration order, for every property
store alike), and an error raised by such a call, wherever the failing
capturer sits in the registry, is not swallowed: it propagates out of the
hook and aborts the remaining cleanup — the trace ends at the failing
capturer and none of the capturers after it is invoked. -/
theorem release_hook_amended :
    (∀ (impls : List (String × ImplOracle)) (ps : PropStore),
       (∀ (name : String) (impl : ImplOracle), (name, impl) ∈ impls →
          impl.stream = true →
          ∀ ps1 : PropStore, ∃ v, (impl.stop_and_get ps1 name).2 = Except.ok v) →
       (release_hook impls ps).trace
          = (impls.filter (fun x => x.2.stream)).map
              (fun x => Event.implStopAndGet x.1)
       ∧ (release_hook impls ps).result = Except.ok ())
    ∧ (∀ (pre rest : List (String × ImplOracle)) (name : String)
         (impl : ImplOracle) (ps : PropStore) (e : PyErr),
        (∀ (n : String) (i : ImplOracle), (n, i) ∈ pre → i.stream = true →
           ∀ ps1 : PropStore, ∃ v, (i.stop_and_get ps1 n).2 = Except.ok v) →
        impl.stream = true →
        (impl.stop_and_get ((release_hook pre ps).store) name).2
            = Except.error e →
        (release_hook (pre ++ (name, impl) :: rest) ps).result = Except.error e
        ∧ (release_hook (pre ++ (name, impl) :: rest) ps).trace
            = (release_hook pre ps).trace ++ [Event.implStopAndGet name]) := by
  constructor
  · intro impls
    induction impls with
    | nil => exact fun ps _ => ⟨rfl, rfl⟩
    | cons hd tl ih =>
      rcases hd with ⟨name, impl⟩
      intro ps h
      by_cases hs : impl.stream = true
      · obtain ⟨v, hv⟩ := h name impl (List.mem_cons_self _ _) hs ps
        rcases hsg : impl.stop_and_get ps name with ⟨ps1, r⟩
        rw [hsg] at hv
        simp only at hv
        subst hv
        obtain ⟨ih1, ih2⟩ :=
          ih ps1 (fun n i hm hstr ps2 => h n i (List.mem_cons_of_mem _ hm) hstr ps2)
        simp [release_hook, hs, hsg, ih1, ih2]
      · obtain ⟨ih1, ih2⟩ :=
          ih ps (fun n i hm hstr ps2 => h n i (List.mem_cons_of_mem _ hm) hstr ps2)
        simp [release_hook, hs, ih1, ih2]
  · intro pre
    induction pre with
    | nil =>
      intro rest name impl ps e _ hs herr
      replace herr : (impl.stop_and_get ps name).2 = Except.error e := herr
      rcases hsg : impl.stop_and_get ps name with ⟨ps1, r⟩
      rw [hsg] at herr
      simp only at herr
      subst herr
      exact ⟨by simp [release_hook, hs, hsg], by simp [release_hook, hs, hsg]⟩
    | cons hd tl ih =>
      rcases hd with ⟨n0, i0⟩
      intro rest name impl ps e hpre hs herr
      by_cases hs0 : i0.stream = true
      · obtain ⟨v, hv⟩ := hpre n0 i0 (List.mem_cons_self _ _) hs0 ps
        rcases hsg : i0.stop_and_get ps n0 with ⟨ps1, r⟩
        rw [hsg] at hv
        simp only at hv
        subst hv
        have hstore : (release_hook ((n0, i0) :: tl) ps).store
            = (release_hook tl ps1).store := by
          simp [release_hook, hs0, hsg]
        rw [hstore] at herr
        obtain ⟨h1, h2⟩ := ih rest name impl ps1 e
          (fun n i hm hstr ps2 => hpre n i (List.mem_cons_of_mem _ hm) hstr ps2)
          hs herr
        have htr : (release_hook ((n0, i0) :: tl) ps).trace
            = Event.implStopAndGet n0 :: (release_hook tl ps1).trace := by
          simp [release_hook, hs0, hsg]
        constructor
        · simp only [List.cons_append]
          simpa [release_hook, hs0, hsg] using h1
        · simp only [List.cons_append]
          have hltr : (release_hook ((n0, i0) :: (tl ++ (name, impl) :: rest)) ps).trace
              = Event.implStopAndGet n0
                :: (release_hook (tl ++ (name, impl) :: rest) ps1).trace := by
            simp [release_hook, hs0, hsg]
          rw [hltr, h2, htr]
          simp
      · have hskip : ∀ l, release_hook ((n0, i0) :: l) ps = release_hook l ps :=
          fun l => by simp [release_hook, hs0]
        rw [hskip tl] at herr
        obtain ⟨h1, h2⟩ := ih rest name impl ps e
          (fun n i hm hstr ps2 => hpre n i (List.mem_cons_of_mem _ hm) hstr ps2)
          hs herr
        simp only [List.cons_append]
        rw [hskip (tl ++ (name, impl) :: rest), hskip tl]
        exact ⟨h1, h2⟩

/-- Witness for the amended C2: a one-capturer all-success registry, and a
three-capturer registry whose middle capturer fails — the error escapes the
hook and the third capturer is never invoked. -/
theorem release_hook_amended_witness :
    ((release_hook [("c0", noopStreamOracle)] emptyStore).trace
        = [Event.implStopAndGet "c0"]
     ∧ (release_hook [("c0", noopStreamOracle)] emptyStore).result
        = Except.ok ())
    ∧ ((release_hook [("c0", noopStreamOracle), ("bad", failingStreamOracle),
          ("c1", noopStreamOracle)] emptyStore).result
        = Except.error (PyErr.runtimeError "boom")
      ∧ (release_hook [("c0", noopStreamOracle), ("bad", failingStreamOracle),
          ("c1", noopStreamOracle)] emptyStore).trace
        = (release_hook [("c0", noopStreamOracle)] emptyStore).trace
          ++ [Event.implStopAndGet "bad"]) := by
  constructor
  · have h := release_hook_amended.1 [("c0", noopStreamOracle)] emptyStore
      (by
        intro n i hm hstr ps1
        simp at hm
        obtain ⟨rfl, rfl⟩ := hm
        exact ⟨none, rfl⟩)
    simpa [noopStreamOracle] using h
  · exact release_hook_amended.2 [("c0", noopStreamOracle)]
      [("c1", noopStreamOracle)] "bad" failingStreamOracle emptyStore
      (PyErr.runtimeError "boom")
      (by
        intro n i hm hstr ps1
        simp at hm
        obtain ⟨rfl, rfl⟩ := hm
        exact ⟨none, rfl⟩)
      rfl rfl

/-- Looking up the key just assigned by a dict assignment yields the new
value. -/
theorem alookup_dictSet_self {α : Type} (d : List (String × α)) (k : String)
    (v : α) : alookup (dictSet d k v) k = some v := by
  induction d with
  | nil => simp [dictSet, alookup]
  | cons hd tl ih =>
    rcases hd with ⟨k1, v1⟩
    by_cases h : k1 = k
    · subst h; simp [dictSet, alookup]
    · simp [dictSet, alookup, h, ih]

/-- Looking up any other key after a dict assignment is unchanged. -/
theorem alookup_dictSet_ne {α : Type} (d : List (String × α)) (k q : String)
    (v : α) (h : ¬k = q) : alookup (dictSet d k v) q = alookup d q := by
  have hq : ¬q = k := fun hh => h hh.symm
  induction d with
  | nil => simp [dictSet, alookup, h]
  | cons hd tl ih =>
    rcases hd with ⟨k1, v1⟩
    by_cases h1 : k1 = k
    · subst h1; simp [dictSet, alookup, h, hq]
    · by_cases h2 : k1 = q <;> simp [dictSet, alookup, h1, h2, hq, ih]

/-- A successful association-list lookup comes from a member binding. -/
theorem alookup_mem {α : Type} :
    ∀ (l : List (String × α)) (q : String) (v : α),
    alookup l q = some v → (q, v) ∈ l := by
  intro l
  induction l with
  | nil => intro q v h; cases h
  | cons hd tl ih =>
    rcases hd with ⟨k1, v1⟩
    intro q v h
    by_cases hk : k1 = q
    · subst hk
      simp [alookup] at h
      subst h
      exact List.mem_cons_self _ _
    · simp [alookup, hk] at h
      exact List.mem_cons_of_mem _ (ih q v h)

/-- If some remaining declaration is a synonym of a name absent from the
original declarations, the constructor loop ends in an AssertionError. -/
theorem interface_init_go_alias_missing
    (decls : List (String × CapDecl)) (a r : String)
    (hnone : alookup decls r = none) :
    ∀ (rem acc : List (String × CapDecl)), (a, CapDecl.synonym r) ∈ rem →
    ∃ msg, interface_init_go decls rem acc
      = Except.error (PyErr.assertionError msg) := by
  intro rem
  induction rem with
  | nil => intro acc hmem; cases hmem
  | cons hd tl ih =>
    rcases hd with ⟨c, d⟩
    intro acc hmem
    rcases List.mem_cons.mp hmem with he | hm
    · obtain ⟨hc, hd⟩ := Prod.mk.injEq .. ▸ he
      cases hd
      simp [interface_init_go, hnone]
    · cases d with
      | impl i =>
        by_cases hc : (alookup acc c).isSome
        · exact ⟨"capturer " ++ c ++ " is repeated ",
            by simp [interface_init_go, hc]⟩
        · have := ih (dictSet acc c (CapDecl.impl i)) hm
          simpa [interface_init_go, hc] using this
      | synonym s =>
        cases hq : alookup decls s with
        | none =>
          exact ⟨"capturer synonym " ++ c ++ " refers to a capturer " ++ s
              ++ " that does not exist ",
            by simp [interface_init_go, hq]⟩
        | some v =>
          have := ih (dictSet acc c v) hm
          simpa [interface_init_go, hq] using this

/-- Invariant of the constructor loop: on success, bindings already
accumulated and not shadowed by a remaining declaration survive to the
result, every remaining direct implementation ends bound to itself, and
every remaining synonym ends bound to the original declaration of its
referent. -/
theorem interface_init_go_lookup (decls : List (String × CapDecl)) :
    ∀ (rem acc reg : List (String × CapDecl)),
    interface_init_go decls rem acc = Except.ok reg →
    (rem.map Prod.fst).Nodup →
    (∀ c, (alookup acc c).isSome = true → c ∉ rem.map Prod.fst) →
    ((∀ c v, alookup acc c = some v → c ∉ rem.map Prod.fst →
        alookup reg c = some v)
     ∧ (∀ c i, (c, CapDecl.impl i) ∈ rem → alookup reg c = some (CapDecl.impl i))
     ∧ (∀ c s, (c, CapDecl.synonym s) ∈ rem →
          ∃ v, alookup decls s = some v ∧ alookup reg c = some v)) := by
  intro rem
  induction rem with
  | nil =>
    intro acc reg hok _ _
    simp [interface_init_go] at hok
    subst hok
    refine ⟨fun c v hv _ => hv, fun c i hm => absurd hm (List.not_mem_nil _),
      fun c s hm => absurd hm (List.not_mem_nil _)⟩
  | cons hd tl ih =>
    rcases hd with ⟨c0, d0⟩
    intro acc reg hok hnd hdisj
    have hnd1 : (tl.map Prod.fst).Nodup := (List.nodup_cons.mp hnd).2
    have hc0tl : c0 ∉ tl.map Prod.fst := (List.nodup_cons.mp hnd).1
    cases d0 with
    | impl i =>
      by_cases hc : (alookup acc c0).isSome
      · simp [interface_init_go, hc] at hok
      · rw [show interface_init_go decls ((c0, CapDecl.impl i) :: tl) acc
            = interface_init_go decls tl (dictSet acc c0 (CapDecl.impl i)) by
              simp [interface_init_go, hc]] at hok
        have hdisj1 : ∀ c, (alookup (dictSet acc c0 (CapDecl.impl i)) c).isSome = true →
            c ∉ tl.map Prod.fst := by
          intro c hcs
          by_cases hcc : c0 = c
          · subst hcc; exact hc0tl
          · rw [alookup_dictSet_ne acc c0 c _ hcc] at hcs
            exact fun hmem => hdisj c hcs (List.mem_cons_of_mem _ hmem)
        obtain ⟨p1, p2, p3⟩ := ih (dictSet acc c0 (CapDecl.impl i)) reg hok hnd1 hdisj1
        refine ⟨?_, ?_, ?_⟩
        · intro c v hv hnm
          have hcc : ¬c0 = c := fun h => hnm (h ▸ List.mem_cons_self _ _)
          have hnm1 : c ∉ tl.map Prod.fst :=
            fun hmem => hnm (List.mem_cons_of_mem _ hmem)
          exact p1 c v (by rw [alookup_dictSet_ne acc c0 c _ hcc]; exact hv) hnm1
        · intro c j hm
          rcases List.mem_cons.mp hm with he | hm1
          · obtain ⟨hc1, hd1⟩ := Prod.mk.injEq .. ▸ he
            subst hc1
            cases hd1
            exact p1 _ _ (alookup_dictSet_self acc _ _) hc0tl
          · exact p2 c j hm1
        · intro c s hm
          rcases List.mem_cons.mp hm with he | hm1
          · obtain ⟨_, hd1⟩ := Prod.mk.injEq .. ▸ he
            cases hd1
          · exact p3 c s hm1
    | synonym s0 =>
      cases hq : alookup decls s0 with
      | none => simp [interface_init_go, hq] at hok
      | some w =>
        rw [show interface_init_go decls ((c0, CapDecl.synonym s0) :: tl) acc
            = interface_init_go decls tl (dictSet acc c0 w) by
              simp [interface_init_go, hq]] at hok
        have hdisj1 : ∀ c, (alookup (dictSet acc c0 w) c).isSome = true →
            c ∉ tl.map Prod.fst := by
          intro c hcs
          by_cases hcc : c0 = c
          · subst hcc; exact hc0tl
          · rw [alookup_dictSet_ne acc c0 c _ hcc] at hcs
            exact fun hmem => hdisj c hcs (List.mem_cons_of_mem _ hmem)
        obtain ⟨p1, p2, p3⟩ := ih (dictSet acc c0 w) reg hok hnd1 hdisj1
        refine ⟨?_, ?_, ?_⟩
        · intro c v hv hnm
          have hcc : ¬c0 = c := fun h => hnm (h ▸ List.mem_cons_self _ _)
          have hnm1 : c ∉ tl.map Prod.fst :=
            fun hmem => hnm (List.mem_cons_of_mem _ hmem)
          exact p1 c v (by rw [alookup_dictSet_ne acc c0 c _ hcc]; exact hv) hnm1
        · intro c j hm
          rcases List.mem_cons.mp hm with he | hm1
          · obtain ⟨_, hd1⟩ := Prod.mk.injEq .. ▸ he
            cases hd1
          · exact p2 c j hm1
        · intro c s hm
          rcases List.mem_cons.mp hm with he | hm1
          · obtain ⟨hc1, hd1⟩ := Prod.mk.injEq .. ▸ he
            subst hc1
            cases hd1
            exact ⟨w, hq, p1 _ w (alookup_dictSet_self acc _ w) hc0tl⟩
          · exact p3 c s hm1

/-- C9: in a registry built from declarations with distinct names, an alias
whose referent is declared as a direct implementation resolves to exactly the
same implementation instance (the same instance token) as the referent
itself; and an alias referring to a name absent from the declarations makes
construction fail with an AssertionError. -/
theorem interface_init_alias_shares_instance :
    (∀ (decls reg : List (String × CapDecl)) (a r : String) (i : Nat),
       (decls.map Prod.fst).Nodup →
       (a, CapDecl.synonym r) ∈ decls →
       alookup decls r = some (CapDecl.impl i) →
       interface_init decls = Except.ok reg →
       alookup reg a = some (CapDecl.impl i)
       ∧ alookup reg r = some (CapDecl.impl i))
    ∧ (∀ (decls : List (String × CapDecl)) (a r : String),
       (a, CapDecl.synonym r) ∈ decls → alookup decls r = none →
       ∃ msg, interface_init decls = Except.error (PyErr.assertionError msg)) := by
  constructor
  · intro decls reg a r i hnd hmem hr hok
    obtain ⟨_, p2, p3⟩ := interface_init_go_lookup decls decls [] reg hok hnd
      (by intro c hcs; simp [alookup] at hcs)
    constructor
    · obtain ⟨v, hv, hreg⟩ := p3 a r hmem
      rw [hr] at hv
      cases hv
      exact hreg
    · exact p2 r i (alookup_mem decls r _ hr)
  · intro decls a r hmem hnone
    exact interface_init_go_alias_missing decls a r hnone decls [] hmem

/-- Distinct capturer names give distinct started-flag property keys. -/
theorem startedKey_inj {a b : String} (h : startedKey a = startedKey b) :
    a = b := by
  have hd : ("capturer-" ++ a ++ "-started").data
      = ("capturer-" ++ b ++ "-started").data := congrArg String.data h
  rw [String.data_append, String.data_append, String.data_append,
    String.data_append] at hd
  rw [List.append_assoc, List.append_assoc] at hd
  have h1 := List.append_cancel_left hd
  have h2 := List.append_cancel_right h1
  exact String.ext h2

/-- Listing reads each name's own started-flag key: the alist lookup into
get_list's output is the lookup into the registry, decorated with that
name's own flag. -/
theorem alookup_get_list (impls : List (String × ImplOracle)) (ps : PropStore)
    (q : String) :
    alookup (get_list impls ps) q
      = (alookup impls q).map (fun impl =>
          if impl.stream then some (pyTruthy (ps.get (startedKey q)))
          else none) := by
  induction impls with
  | nil => rfl
  | cons hd tl ih =>
    rcases hd with ⟨n, i⟩
    have hgl : get_list ((n, i) :: tl) ps
        = (if i.stream then (n, some (pyTruthy (ps.get (startedKey n))))
           else (n, none)) :: get_list tl ps := rfl
    by_cases hs : i.stream
    · rw [hgl, if_pos hs]
      by_cases h : n = q
      · subst h; simp [alookup, hs]
      · simp [alookup, h, hs, ih]
    · rw [hgl, if_neg hs]
      by_cases h : n = q
      · subst h; simp [alookup, hs]
      · simp [alookup, h, hs, ih]

/-- Witness for C9 at a concrete two-entry registry declaration. -/
theorem interface_init_alias_shares_instance_witness :
    alookup [("vnc0", CapDecl.impl 7), ("screen", CapDecl.impl 7)] "screen"
        = some (CapDecl.impl 7)
    ∧ alookup [("vnc0", CapDecl.impl 7), ("screen", CapDecl.impl 7)] "vnc0"
        = some (CapDecl.impl 7) :=
  interface_init_alias_shares_instance.1
    [("vnc0", CapDecl.impl 7), ("screen", CapDecl.synonym "vnc0")]
    [("vnc0", CapDecl.impl 7), ("screen", CapDecl.impl 7)]
    "screen" "vnc0" 7 (by decide) (by simp) rfl rfl

/-- C10: the started flag is keyed by the name given in the request. Starting
a not-yet-started stream capturer under name `a` writes exactly the property
`capturer-a-started`, so when names `a` and `b` are bound to the very same
implementation instance (an alias pair) and differ, the listing afterwards
shows `a` as capturing while `b`'s listed state is exactly what it was
before. -/
theorem started_flag_keyed_by_request_name
    (impls : List (String × ImplOracle)) (a b : String) (impl : ImplOracle)
    (ps : PropStore)
    (hla : alookup impls a = some impl) (hlb : alookup impls b = some impl)
    (hs : impl.stream = true) (hab : ¬a = b)
    (hnc : pyTruthy (ps.get (startedKey a)) = false) :
    (registry_put_start impls a true ps).result = .ok ⟨[]⟩
    ∧ (registry_put_start impls a true ps).store
        = ps.set (startedKey a) (some "True")
    ∧ alookup (get_list impls ((registry_put_start impls a true ps).store)) a
        = some (some true)
    ∧ alookup (get_list impls ((registry_put_start impls a true ps).store)) b
        = alookup (get_list impls ps) b := by
  have hrun : registry_put_start impls a true ps
      = ⟨[], ps.set (startedKey a) (some "True"), .ok ⟨[]⟩⟩ := by
    simp [registry_put_start, hla, put_start, hs, hnc]
  have hkey : ¬startedKey b = startedKey a :=
    fun h => hab (startedKey_inj h).symm
  refine ⟨by rw [hrun], by rw [hrun], ?_, ?_⟩
  · rw [hrun, alookup_get_list, hla]
    simp [hs, PropStore.set, pyTruthy]
    decide
  · rw [hrun, alookup_get_list, alookup_get_list, hlb]
    have hbgets : (ps.set (startedKey a) (some "True")).get (startedKey b)
        = ps.get (startedKey b) := by
      simp [PropStore.set, hkey]
    rw [hbgets]

/-- Witness for C10 at a concrete registry where the names vnc0 and screen
share one implementation instance. -/
theorem started_flag_keyed_by_request_name_witness :
    (registry_put_start
        [("vnc0", noopStreamOracle), ("screen", noopStreamOracle)]
        "vnc0" true emptyStore).result = .ok ⟨[]⟩
    ∧ (registry_put_start
        [("vnc0", noopStreamOracle), ("screen", noopStreamOracle)]
        "vnc0" true emptyStore).store
        = emptyStore.set (startedKey "vnc0") (some "True")
    ∧ alookup (get_list [("vnc0", noopStreamOracle), ("screen", noopStreamOracle)]
        ((registry_put_start
            [("vnc0", noopStreamOracle), ("screen", noopStreamOracle)]
            "vnc0" true emptyStore).store)) "vnc0"
        = some (some true)
    ∧ alookup (get_list [("vnc0", noopStreamOracle), ("screen", noopStreamOracle)]
        ((registry_put_start
            [("vnc0", noopStreamOracle), ("screen", noopStreamOracle)]
            "vnc0" true emptyStore).store)) "screen"
        = alookup (get_list [("vnc0", noopStreamOracle), ("screen", noopStreamOracle)]
            emptyStore) "screen" :=
  started_flag_keyed_by_request_name
    [("vnc0", noopStreamOracle), ("screen", noopStreamOracle)]
    "vnc0" "screen" noopStreamOracle emptyStore rfl rfl rfl (by decide) rfl

/-- takeWhile of a run of satisfying characters followed by a failing one
takes exactly the run. -/
theorem takeWhile_all_append (p : Char → Bool) (w r : List Char) (x : Char)
    (hw : ∀ c ∈ w, p c = true) (hx : p x = false) :
    (w ++ x :: r).takeWhile p = w := by
  induction w with
  | nil => simp [List.takeWhile_cons, hx]
  | cons c cs ih =>
    have hc : p c = true := hw c (List.mem_cons_self _ _)
    simp only [List.cons_append, List.takeWhile_cons, hc, if_true]
    rw [ih (fun d hd => hw d (List.mem_cons_of_mem _ hd))]

/-- dropWhile of a run of satisfying characters followed by a failing one
drops exactly the run. -/
theorem dropWhile_all_append (p : Char → Bool) (w r : List Char) (x : Char)
    (hw : ∀ c ∈ w, p c = true) (hx : p x = false) :
    (w ++ x :: r).dropWhile p = x :: r := by
  induction w with
  | nil => simp [List.dropWhile_cons, hx]
  | cons c cs ih =>
    have hc : p c = true := hw c (List.mem_cons_self _ _)
    simp only [List.cons_append, List.dropWhile_cons, hc, if_true]
    exact ih (fun d hd => hw d (List.mem_cons_of_mem _ hd))

/-- The executable token matcher agrees with the token shape of the claim. -/
theorem isToken_iff (t : List Char) : isToken t = true ↔ IsMimeToken t := by
  constructor
  · intro h
    unfold isToken at h
    cases hdw : t.dropWhile isWordChar with
    | nil => rw [hdw] at h; cases h
    | cons x r2 =>
      rw [hdw] at h
      replace h : (x == '/' && !(t.takeWhile isWordChar).isEmpty
          && !r2.isEmpty && r2.all isWordChar) = true := h
      rw [Bool.and_eq_true, Bool.and_eq_true, Bool.and_eq_true] at h
      obtain ⟨⟨⟨hx, hw1⟩, hr2⟩, hall⟩ := h
      have hx' : x = '/' := by simpa using hx
      subst hx'
      refine ⟨t.takeWhile isWordChar, r2, ?_, ?_, ?_, ?_, ?_⟩
      · rw [← hdw]
        exact (List.takeWhile_append_dropWhile isWordChar t).symm
      · intro he; rw [he] at hw1; simp at hw1
      · intro he; rw [he] at hr2; simp at hr2
      · exact fun c hc => List.mem_takeWhile_imp hc
      · exact fun c hc => (List.all_eq_true.mp hall) c hc
  · intro h
    obtain ⟨w1, w2, rfl, hne1, hne2, h1, h2⟩ := h
    have hslash : isWordChar '/' = false := by decide
    have hdw := dropWhile_all_append isWordChar w1 w2 '/' h1 hslash
    have htw := takeWhile_all_append isWordChar w1 w2 '/' h1 hslash
    unfold isToken
    rw [hdw, htw]
    simp [Bool.and_eq_true, List.all_eq_true]
    refine ⟨⟨?_, ?_⟩, fun c hc => h2 c hc⟩
    · cases w1 with
      | nil => exact absurd rfl hne1
      | cons a as => simp
    · cases w2 with
      | nil => exact absurd rfl hne2
      | cons a as => simp

/-- splitComma always yields at least one piece. -/
theorem splitComma_ne_nil (l : List Char) : splitComma l ≠ [] := by
  induction l with
  | nil => simp [splitComma]
  | cons c cs _ =>
    by_cases hc : c = ','
    · simp [splitComma, hc]
    · simp only [splitComma, hc, if_false]
      cases hsc : splitComma cs with
      | nil => simp
      | cons p ps => simp

/-- Moving the head character inside the first piece commutes with
joining. -/
theorem joinComma_cons_head (c : Char) (p : List Char) (ps : List (List Char)) :
    joinComma ((c :: p) :: ps) = c :: joinComma (p :: ps) := by
  cases ps with
  | nil => rfl
  | cons q qs => rfl

/-- Joining the comma-split pieces restores the original string. -/
theorem joinComma_splitComma (l : List Char) : joinComma (splitComma l) = l := by
  induction l with
  | nil => rfl
  | cons c cs ih =>
    by_cases hc : c = ','
    · subst hc
      simp only [splitComma, if_pos rfl]
      cases hsc : splitComma cs with
      | nil => exact absurd hsc (splitComma_ne_nil cs)
      | cons p ps =>
        rw [hsc] at ih
        show joinComma ([] :: p :: ps) = ',' :: cs
        rw [show joinComma ([] :: p :: ps) = ',' :: joinComma (p :: ps) from rfl]
        rw [ih]
    · simp only [splitComma, hc, if_false]
      cases hsc : splitComma cs with
      | nil => exact absurd hsc (splitComma_ne_nil cs)
      | cons p ps =>
        rw [hsc] at ih
        rw [joinComma_cons_head, ih]

/-- A nonempty family of tokens joined with commas is in the claim's
language. -/
theorem mediaTypeTokens_joinComma :
    ∀ (ts : List (List Char)), ts ≠ [] → (∀ p ∈ ts, isToken p = true) →
    MediaTypeTokens (joinComma ts) := by
  intro ts
  induction ts with
  | nil => intro h; cases h rfl
  | cons p qs ih =>
    intro _ hall
    cases qs with
    | nil =>
      exact MediaTypeTokens.single p
        ((isToken_iff p).mp (hall p (List.mem_cons_self _ _)))
    | cons q rs =>
      have hrest : MediaTypeTokens (joinComma (q :: rs)) :=
        ih (by simp) (fun x hx => hall x (List.mem_cons_of_mem _ hx))
      exact MediaTypeTokens.cons p (joinComma (q :: rs))
        ((isToken_iff p).mp (hall p (List.mem_cons_self _ _))) hrest

/-- Soundness: a string the matcher accepts is in the claim's language. -/
theorem matchesBody_mtt (l : List Char) (h : matchesBody l = true) :
    MediaTypeTokens l := by
  have hall : ∀ p ∈ splitComma l, isToken p = true := by
    simpa [matchesBody, List.all_eq_true] using h
  have := mediaTypeTokens_joinComma (splitComma l) (splitComma_ne_nil l) hall
  rwa [joinComma_splitComma] at this

/-- No character of a token is a comma. -/
theorem isMimeToken_no_comma (t : List Char) (h : IsMimeToken t) : ',' ∉ t := by
  obtain ⟨w1, w2, rfl, _, _, h1, h2⟩ := h
  intro hmem
  rcases List.mem_append.mp hmem with hm | hm
  · exact absurd (h1 ',' hm) (by decide)
  · rcases List.mem_cons.mp hm with he | hm2
    · exact absurd he (by decide)
    · exact absurd (h2 ',' hm2) (by decide)

/-- Splitting a comma-free string yields the single piece itself. -/
theorem splitComma_no_comma (t : List Char) (h : ',' ∉ t) :
    splitComma t = [t] := by
  induction t with
  | nil => rfl
  | cons c cs ih =>
    have hc : ¬c = ',' := fun hh => h (hh ▸ List.mem_cons_self _ _)
    have ih1 := ih (fun hm => h (List.mem_cons_of_mem _ hm))
    simp [splitComma, hc, ih1]

/-- Splitting at the first comma after a comma-free prefix. -/
theorem splitComma_append_comma (t r : List Char) (h : ',' ∉ t) :
    splitComma (t ++ ',' :: r) = t :: splitComma r := by
  induction t with
  | nil => simp [splitComma]
  | cons c cs ih =>
    have hc : ¬c = ',' := fun hh => h (hh ▸ List.mem_cons_self _ _)
    have ih1 := ih (fun hm => h (List.mem_cons_of_mem _ hm))
    simp [splitComma, hc, ih1]

/-- Completeness: every string of the claim's language is accepted by the
matcher. -/
theorem mtt_matchesBody (l : List Char) (h : MediaTypeTokens l) :
    matchesBody l = true := by
  induction h with
  | single t ht =>
    simp [matchesBody, splitComma_no_comma t (isMimeToken_no_comma t ht),
      (isToken_iff t).mpr ht]
  | cons t rest ht _ ih =>
    rw [matchesBody, splitComma_append_comma t rest (isMimeToken_no_comma t ht)]
    simp only [List.all_cons, Bool.and_eq_true]
    exact ⟨(isToken_iff t).mpr ht, by simpa [matchesBody] using ih⟩

/-- The matcher decides exactly the claim's language. -/
theorem matchesBody_iff (l : List Char) :
    matchesBody l = true ↔ MediaTypeTokens l :=
  ⟨matchesBody_mtt l, mtt_matchesBody l⟩

/-- The anchored search accepts exactly the claim's language, alone or
followed by one trailing newline. -/
theorem mime_search_iff (s : String) :
    mime_type_regex_search s = true ↔
      (MediaTypeTokens s.data
       ∨ ∃ t, s.data = t ++ ['\n'] ∧ MediaTypeTokens t) := by
  unfold mime_type_regex_search
  rw [Bool.or_eq_true]
  constructor
  · rintro (h | h)
    · exact Or.inl (matchesBody_mtt _ h)
    · cases hgl : s.data.getLast? with
      | none => rw [hgl] at h; cases h
      | some c =>
        rw [hgl] at h
        obtain ⟨hc, hm⟩ := by simpa [Bool.and_eq_true] using h
        have hc' : c = '\n' := by simpa using hc
        subst hc'
        have hne : s.data ≠ [] := by
          intro he; rw [he] at hgl; cases hgl
        have hsplit : s.data.dropLast ++ [s.data.getLast hne] = s.data :=
          List.dropLast_append_getLast hne
        have hlast : s.data.getLast hne = '\n' := by
          have := List.getLast?_eq_getLast s.data hne
          rw [hgl] at this
          exact (Option.some.inj this).symm
        rw [hlast] at hsplit
        exact Or.inr ⟨s.data.dropLast, hsplit.symm, matchesBody_mtt _ hm⟩
  · rintro (h | ⟨t, heq, ht⟩)
    · exact Or.inl (mtt_matchesBody _ h)
    · refine Or.inr ?_
      rw [heq, List.getLast?_concat, List.dropLast_concat]
      simp [mtt_matchesBody t ht]

/-- Every character of a string in the claim's language is a word
character, a slash or a comma. -/
theorem mtt_chars (l : List Char) (h : MediaTypeTokens l) :
    ∀ c ∈ l, (isWordChar c || c == '/' || c == ',') = true := by
  induction h with
  | single t ht =>
    obtain ⟨w1, w2, rfl, _, _, h1, h2⟩ := ht
    intro c hc
    rcases List.mem_append.mp hc with hm | hm
    · simp [h1 c hm]
    · rcases List.mem_cons.mp hm with rfl | hm2
      · simp
      · simp [h2 c hm2]
  | cons t rest ht _ ih =>
    intro c hc
    rcases List.mem_append.mp hc with hm | hm
    · obtain ⟨w1, w2, heq, _, _, h1, h2⟩ := ht
      subst heq
      rcases List.mem_append.mp hm with hm1 | hm1
      · simp [h1 c hm1]
      · rcases List.mem_cons.mp hm1 with rfl | hm2
        · simp
        · simp [h2 c hm2]
    · rcases List.mem_cons.mp hm with rfl | hm2
      · simp
      · exact ih c hm2

/-- C8 counterexample: the construction-time validation accepts the string
made of a valid media type followed by one newline, which is not one or more
comma-separated type/subtype tokens — so the claimed accepted set is not
exact (Python `$` also matches just before a trailing newline). -/
theorem mime_trailing_newline_counterexample :
    isOkE (impl_c_init true "image/png\n") = true
    ∧ ¬MediaTypeTokens ("image/png\n").data := by
  constructor
  · rfl
  · intro h
    exact absurd (mtt_chars _ h '\n' (by decide)) (by decide)

/-- C8 as amended: construction accepts exactly the strings made of one or
more comma-separated `[A-Za-z0-9_]+/[A-Za-z0-9_]+` tokens, either alone or
followed by one trailing newline; in particular the claim's five examples
behave as stated. -/
theorem impl_c_init_accepts_iff :
    (∀ (stream : Bool) (s : String),
       isOkE (impl_c_init stream s) = true ↔
         (MediaTypeTokens s.data
          ∨ ∃ t, s.data = t ++ ['\n'] ∧ MediaTypeTokens t))
    ∧ isOkE (impl_c_init true "image/png") = true
    ∧ isOkE (impl_c_init true "image/png,video/avi") = true
    ∧ isOkE (impl_c_init true "image") = false
    ∧ isOkE (impl_c_init true "image/ png") = false
    ∧ isOkE (impl_c_init true "/png") = false := by
  refine ⟨?_, rfl, rfl, rfl, rfl, rfl⟩
  intro stream s
  rw [← mime_search_iff]
  unfold impl_c_init
  by_cases h : mime_type_regex_search s
  · simp [h, isOkE]
  · simp [h, isOkE]

end Capture
